import Mathlib

/-!
# Verification of the `logos` ontology core

A shallow embedding, in Lean 4, of the core of the `logos` knowledge-base
(`src/core/`): the truth-value domain (`truth.py`), the entity hierarchy
(`entity.py`), relations and contexts (`relation.py`, `context.py`), the
ontology registry (`ontology.py`), temporal relations (`temporal.py`),
quantified relations (`quantifier.py`) and serialization (`save_load.py`).

Python `datetime` values are modelled as integers; dictionaries are modelled
as association lists (insertion ordered, as in CPython); object identity of
relations is modelled by their generated ids, which the ontology allocates
from a counter.  Operations that can raise are modelled in `Except String`.
-/

namespace Logos

/-! ## truth.py -/

/-- `Modality` enum from `truth.py`. -/
inductive Modality where
  | ALETHIC
  | DEONTIC
  | EPISTEMIC
  | PROBABILISTIC
  deriving DecidableEq, Repr

/-- `TruthState` enum from `truth.py`. -/
inductive TruthState where
  | TRUE
  | FALSE
  | UNKNOWN
  | SUPERPOSITION
  deriving DecidableEq, Repr

/-- `TruthValue` from `truth.py`: a state plus modality and an optional
probability.  The Python `float` probability is modelled as a rational; no
arithmetic is ever done on it in the verified code paths. -/
structure TruthValue where
  value : TruthState := .UNKNOWN
  modality : Modality := .ALETHIC
  probability : Option ℚ := none
  deriving DecidableEq, Repr

/-- `TruthValue.evaluate` with `sample_probability=False` (the only way the
verified code paths call it): the `SUPERPOSITION`-sampling branch is guarded
by `sample_probability` and is never taken, so the method returns the stored
state unchanged. -/
def TruthValue.evaluate (tv : TruthValue) : TruthState :=
  tv.value

/-- Python `str.upper()`: uppercase character by character (defined over the
character list so that it computes by kernel reduction). -/
def pyUpper (s : String) : String :=
  ⟨s.data.map Char.toUpper⟩

/-! ## entity.py — `Entity.get_all_ancestors`

The parent graph is modelled as a function `g : Fin n → List (Fin n)` giving
each entity's `parents` list (the ontology owns finitely many entities).
`get_all_ancestors` threads a mutable `seen` set through a recursive walk:

```
def get_all_ancestors(self, seen=None):
    if seen is None: seen = set()
    for p in self.parents:
        if p not in seen:
            seen.add(p)
            p.get_all_ancestors(seen)
    return seen
```

`gaaWalk g l seen` is the loop `for p in l: ...` with `seen` threaded; the
returned set always contains the incoming `seen`, which is also what makes
the recursion terminate (the measure is the number of unvisited entities,
then the length of the remaining parent list). -/

/-- The recursive walk of `Entity.get_all_ancestors`, processing the parent
list `l` with current visited set `seen`.  The subtype records that the walk
only ever adds to `seen`. -/
def gaaWalk {n : ℕ} (g : Fin n → List (Fin n)) :
    (l : List (Fin n)) → (seen : Finset (Fin n)) → {s : Finset (Fin n) // seen ⊆ s}
  | [], seen => ⟨seen, Finset.Subset.refl seen⟩
  | p :: ps, seen =>
    if h : p ∈ seen then
      gaaWalk g ps seen
    else
      let inner := gaaWalk g (g p) (insert p seen)
      let outer := gaaWalk g ps inner.val
      ⟨outer.val,
        Finset.Subset.trans
          (Finset.Subset.trans (Finset.subset_insert p seen) inner.property)
          outer.property⟩
  termination_by l seen => (n - seen.card, l.length)
  decreasing_by
  · exact Prod.Lex.right _ (Nat.lt_succ_self _)
  · apply Prod.Lex.left
    have hne : seen ≠ Finset.univ := by
      intro he; rw [he] at h; exact h (Finset.mem_univ p)
    have hcard : seen.card < n := by
      have := (Finset.card_lt_iff_ne_univ seen).mpr hne
      simpa using this
    have : (insert p seen).card = seen.card + 1 := Finset.card_insert_of_not_mem h
    omega
  · apply Prod.Lex.left
    have hne : seen ≠ Finset.univ := by
      intro he; rw [he] at h; exact h (Finset.mem_univ p)
    have hcard : seen.card < n := by
      have := (Finset.card_lt_iff_ne_univ seen).mpr hne
      simpa using this
    have hins : (insert p seen).card = seen.card + 1 := Finset.card_insert_of_not_mem h
    have hsub : insert p seen ⊆ inner.val := inner.property
    unfold inner at hsub
    have := Finset.card_le_card hsub
    omega

/-- `Entity.get_all_ancestors` called with no `seen` argument: walk the
`parents` list starting from the empty visited set. -/
def getAllAncestors {n : ℕ} (g : Fin n → List (Fin n)) (e : Fin n) : Finset (Fin n) :=
  (gaaWalk g (g e) ∅).val

/-- Reachability via one or more parent edges: `Reach g e x` holds iff there
is a nonempty chain of `parents` edges from `e` to `x`. -/
inductive Reach {n : ℕ} (g : Fin n → List (Fin n)) : Fin n → Fin n → Prop where
  | parent {e p : Fin n} : p ∈ g e → Reach g e p
  | step {e m p : Fin n} : Reach g e m → p ∈ g m → Reach g e p

/-- A concrete diamond-inheritance parent graph (FIDO 0 → {DOG-like 1,
SPECIES-like 2} → LIVING_THING-like 3), used to witness the ancestor claim. -/
def diamondG : Fin 4 → List (Fin 4)
  | 0 => [1, 2]
  | 1 => [3]
  | 2 => [3]
  | 3 => []

/-- A topological rank for `diamondG`, witnessing that it is a DAG. -/
def diamondRank : Fin 4 → ℕ
  | 0 => 2
  | 1 => 1
  | 2 => 1
  | 3 => 0

/-! ## ontology.py — `add_relation` and propagation

Entities are the indices `Fin n` of the ontology's entity table; each entity
carries its `parents` list and its `relations` list (held as relation ids:
relation objects have no `__eq__`, so Python's `in`/`==` on them is object
identity, which the ontology-unique generated ids model).  Predicates are
registered uniquely by name, so predicate object identity is modelled by a
number.  A relation's optional `context` is compared with `==` in the
deduplication scan; Relations, RelationContexts and callables compare by
object identity and plain booleans by value. -/

/-- The `context` argument of `add_relation`: another `Relation`, a
`RelationContext`, a zero-argument callable (each compared by object
identity, modelled as an id), or a plain boolean. -/
inductive CtxRef where
  | relation (id : ℕ)
  | contextObj (id : ℕ)
  | callback (id : ℕ)
  | boolLit (b : Bool)
  deriving DecidableEq, Repr

/-- A `Relation` as stored by the ontology (`relation.py`, `Relation.__init__`):
generated id, predicate, role map (insertion-ordered dict), upper-cased
relation type, optional context, truth value (defaulting to `UNKNOWN`), and
the set of dependent relations (ids). -/
structure Rel (n : ℕ) where
  id : ℕ
  predicate : ℕ
  roles : List (String × Fin n)
  relationType : String
  context : Option CtxRef
  truthValue : TruthValue
  dependents : Finset ℕ
  deriving DecidableEq

/-- The parts of `Ontology` that `add_relation` reads and writes: the entity
table (parents and per-entity relation lists) and the relation registry.
`nextId` models the generator of fresh relation ids. -/
structure Ontology (n : ℕ) where
  parents : Fin n → List (Fin n)
  entRels : Fin n → List ℕ
  relations : List (Rel n)
  nextId : ℕ

/-- `e.get_all_ancestors()` as called by the ontology. -/
def Ontology.ancestors {n : ℕ} (o : Ontology n) (e : Fin n) : Finset (Fin n) :=
  getAllAncestors o.parents e

/-- The deduplication test of `add_relation`:
`existing.predicate == predicate and existing.roles == roles and
existing.context == context`. -/
def relMatches {n : ℕ} (pred : ℕ) (roles : List (String × Fin n))
    (ctx : Option CtxRef) (ex : Rel n) : Bool :=
  decide (ex.predicate = pred ∧ ex.roles = roles ∧ ex.context = ctx)

/-- `context.dependents.add(r)` on the relation with the context's id. -/
def addDependent {n : ℕ} (cid rid : ℕ) (ex : Rel n) : Rel n :=
  if ex.id = cid then
    ⟨ex.id, ex.predicate, ex.roles, ex.relationType, ex.context, ex.truthValue,
      insert rid ex.dependents⟩
  else ex

/-- The attachment loop of `add_relation`:
`for e in roles.values(): e.relations.append(r)` (appends once per
occurrence of the entity among the role values). -/
def attachToRoles {n : ℕ} (rid : ℕ) (roles : List (String × Fin n))
    (f : Fin n → List ℕ) : Fin n → List ℕ :=
  roles.foldl (fun acc re => fun e => if e = re.2 then acc e ++ [rid] else acc e) f

/-- `Ontology.propagate_relation_to_descendants`: for every registered
entity, if any of the relation's role participants is among the entity's
ancestors and the relation is not yet in the entity's relation list, append
it. -/
def propagateRelationToDescendants {n : ℕ} (o : Ontology n) (r : Rel n) : Ontology n :=
  ⟨o.parents,
    fun e =>
      if (∃ a ∈ r.roles.map Prod.snd, a ∈ o.ancestors e) ∧ r.id ∉ o.entRels e then
        o.entRels e ++ [r.id]
      else o.entRels e,
    o.relations, o.nextId⟩

/-- `Ontology.add_relation`: deduplicate on (predicate, roles, context);
otherwise create the relation, register it in the context relation's
dependents, append it to the registry, attach it to every role entity, and
propagate it to descendants. -/
def addRelation {n : ℕ} (o : Ontology n) (pred : ℕ) (roles : List (String × Fin n))
    (rtype : String) (ctx : Option CtxRef) (tv : Option TruthValue) :
    Rel n × Ontology n :=
  match o.relations.find? (relMatches pred roles ctx) with
  | some ex => (ex, o)
  | none =>
    let r : Rel n :=
      ⟨o.nextId, pred, roles, pyUpper rtype, ctx,
        tv.getD ⟨.UNKNOWN, .ALETHIC, none⟩, ∅⟩
    let rels1 :=
      match ctx with
      | some (.relation cid) => o.relations.map (addDependent cid r.id)
      | _ => o.relations
    let o1 : Ontology n :=
      ⟨o.parents, attachToRoles r.id roles o.entRels, rels1 ++ [r], o.nextId + 1⟩
    (r, propagateRelationToDescendants o1 r)

/-- A one-entity ontology with no parents and no relations, used to exhibit
the duplicate attachment produced when one entity fills two roles. -/
def onto1 : Ontology 1 :=
  ⟨fun _ => [], fun _ => [], [], 0⟩

/-- A two-entity hierarchy: entity `0` (a FIDO) has parent `1` (a DOG). -/
def parentsW : Fin 2 → List (Fin 2)
  | 0 => [1]
  | 1 => []

/-- A fresh two-entity ontology over `parentsW`. -/
def ontoW : Ontology 2 :=
  ⟨parentsW, fun _ => [], [], 0⟩

/-! ## relation.py / context.py — truth evaluation

`Relation.evaluate_truth` and `RelationContext.evaluate` recurse through a
heterogeneous object graph.  The mutual inductives below are that graph:
a relation carries a stored truth value and an optional context (another
relation, a `RelationContext`, a zero-argument callable — modelled by the
`TruthState` it returns, per the source comment "Callables should return a
TruthState" — or a plain value); a `RelationContext` carries a `condition`
which is a callable, a relation, another context, a plain value, or an
`(operator, *operands)` tuple whose operands are arbitrary values. -/

mutual
/-- A `Relation` as far as truth evaluation is concerned: its stored
`truth_value` and its `context`. -/
inductive SRel where
  | mk (truth : TruthValue) (context : Option RCtx)

/-- The `context` attribute of a relation. -/
inductive RCtx where
  | rel (r : SRel)
  | rctx (c : SCtx)
  | callback (t : TruthState)
  | rawBool (b : Bool)

/-- A `RelationContext` object: its `condition`. -/
inductive SCtx where
  | mk (cond : SCond)

/-- The `condition` of a `RelationContext`, or an operand inside a logical
tree: a callable returning a `TruthValue`, a callable returning some other
value (coerced through `bool(...)`), a relation, a context, a plain value,
or an `(operator, *operands)` tuple. -/
inductive SCond where
  | callableTV (tv : TruthValue)
  | callableRaw (b : Bool)
  | rel (r : SRel)
  | rctx (c : SCtx)
  | raw (b : Bool)
  | tree (op : String) (args : List SCond)
end

/-- The dynamic result of `Relation.evaluate_truth`: a `TruthState`, or —
when the context is a plain value `v`, since `TruthValue(v).value` is just
`v` back — the plain value itself. -/
inductive PyV where
  | ts (t : TruthState)
  | rawB (b : Bool)
  deriving DecidableEq, Repr

/-- A Python `TruthValue` object as produced during context evaluation: a
well-formed one, or one built as `TruthValue(v)` from a non-`TruthState`
plain value `v`, whose `value` attribute is then just `v`. -/
inductive PyTV where
  | norm (tv : TruthValue)
  | boolVal (b : Bool)
  deriving DecidableEq, Repr

/-- The comparison `v.value == TruthState.t`: a plain `bool` stored in
`value` compares unequal to every `TruthState` member. -/
def PyTV.isState (v : PyTV) (t : TruthState) : Bool :=
  match v with
  | .norm tv => tv.value = t
  | .boolVal _ => false

mutual
/-- `Relation.evaluate_truth` (`relation.py:96-110`).  The
`isinstance(self.context, RelationContext)` branch calls
`self.context.evaluate_truth()`, but `RelationContext` defines no such
method, so that branch raises `AttributeError`. -/
def evalTruth : SRel → Except String PyV
  | .mk truth context =>
    match context with
    | some (.rel r) => evalTruth r
    | some (.rctx _) =>
      .error "AttributeError: RelationContext object has no attribute evaluate_truth"
    | some (.callback t) => .ok (.ts t)
    | some (.rawBool b) => .ok (.rawB b)
    | none => .ok (.ts truth.value)

/-- `RelationContext.evaluate` (`context.py:24-90`). -/
def evalCtx : SCtx → Except String PyTV
  | .mk cond => evalCond cond

/-- Case split of `RelationContext.evaluate` on the shape of `condition`. -/
def evalCond : SCond → Except String PyTV
  | .callableTV tv => .ok (.norm tv)
  | .callableRaw b => .ok (.norm ⟨if b then .TRUE else .FALSE, .ALETHIC, none⟩)
  | .rel r => do
    let tv ← evalTruth r
    match tv with
    | .ts t => pure (.norm ⟨t, .ALETHIC, none⟩)
    | .rawB b => pure (.boolVal b)
  | .rctx c => evalCtx c
  | .raw b => .ok (.norm ⟨if b then .TRUE else .FALSE, .ALETHIC, none⟩)
  | .tree op args => do
    let vals ← evalArgs args
    if op = "NOT" then
      match vals with
      | [] => .error "IndexError: list index out of range"
      | v :: _ =>
        if v.isState .TRUE then .ok (.norm ⟨.FALSE, .ALETHIC, none⟩)
        else if v.isState .FALSE then .ok (.norm ⟨.TRUE, .ALETHIC, none⟩)
        else .ok v
    else if op = "AND" then
      if vals.any (fun v => v.isState .FALSE) then .ok (.norm ⟨.FALSE, .ALETHIC, none⟩)
      else if vals.all (fun v => v.isState .TRUE) then .ok (.norm ⟨.TRUE, .ALETHIC, none⟩)
      else .ok (.norm ⟨.UNKNOWN, .ALETHIC, none⟩)
    else if op = "OR" then
      if vals.any (fun v => v.isState .TRUE) then .ok (.norm ⟨.TRUE, .ALETHIC, none⟩)
      else if vals.all (fun v => v.isState .FALSE) then .ok (.norm ⟨.FALSE, .ALETHIC, none⟩)
      else .ok (.norm ⟨.UNKNOWN, .ALETHIC, none⟩)
    else if op = "XOR" then
      if vals.any (fun v => v.isState .UNKNOWN) then .ok (.norm ⟨.UNKNOWN, .ALETHIC, none⟩)
      else if (vals.countP (fun v => v.isState .TRUE)) % 2 = 1 then
        .ok (.norm ⟨.TRUE, .ALETHIC, none⟩)
      else .ok (.norm ⟨.FALSE, .ALETHIC, none⟩)
    else if op = "NAND" then
      -- the source recurses into `RelationContext(("NOT", ("AND", *args))).evaluate()`;
      -- there `ensure` is applied to the inner tuple and raises `TypeError`,
      -- so after computing `vals` the branch always raises
      .error "TypeError: Cannot wrap into RelationContext"
    else if op = "NOR" then
      -- same as NAND, via `("NOT", ("OR", *args))`
      .error "TypeError: Cannot wrap into RelationContext"
    else if op = "XNOR" then
      if vals.any (fun v => v.isState .UNKNOWN) then .ok (.norm ⟨.UNKNOWN, .ALETHIC, none⟩)
      else
        -- same as NAND, via `("NOT", ("XOR", *args))`
        .error "TypeError: Cannot wrap into RelationContext"
    else .error "ValueError: Unknown logical operator"

/-- The operand evaluation `[RelationContext.ensure(a).evaluate() for a in args]`:
`ensure` accepts a `RelationContext` as is, wraps a `Relation` (whose
evaluation then goes through the single-relation branch of `evaluate`), and
raises `TypeError` on anything else. -/
def evalArgs : List SCond → Except String (List PyTV)
  | [] => .ok []
  | a :: rest =>
    match a with
    | .rctx c => do
      let v ← evalCtx c
      let vs ← evalArgs rest
      pure (v :: vs)
    | .rel r => do
      let tv ← evalTruth r
      let v : PyTV :=
        match tv with
        | .ts t => .norm ⟨t, .ALETHIC, none⟩
        | .rawB b => .boolVal b
      let vs ← evalArgs rest
      pure (v :: vs)
    | _ => .error "TypeError: Cannot wrap into RelationContext"
end

/-! ## temporal.py — `TimeInterval` and `TemporalRelation`

Python `datetime` values are modelled as integers.  `TimeInterval.overlaps`
substitutes `datetime.min`/`datetime.max` for missing bounds; this is
modelled as minus/plus infinity (the verified statements never place a bound
at the extreme datetime values). -/

/-- `TimeInterval`: an optional start and end (`temporal.py:7-13`).  The
constructor stores the bounds without any validation. -/
structure TimeInterval where
  start_time : Option ℤ
  end_time : Option ℤ
  deriving DecidableEq, Repr

/-- `TimeInterval.__init__`: store the two bounds, no validation. -/
def TimeInterval.init (s e : Option ℤ) : TimeInterval :=
  ⟨s, e⟩

/-- `TimeInterval.contains`: half-open containment, unbounded on a missing
side. -/
def TimeInterval.containsM (i : TimeInterval) (moment : ℤ) : Bool :=
  if (match i.start_time with | some s => decide (moment < s) | none => false) then false
  else if (match i.end_time with | some e => decide (e ≤ moment) | none => false) then false
  else true

/-- `(a or datetime.min) < (b or datetime.max)`: a missing first bound acts
as minus infinity and a missing second bound as plus infinity. -/
def ltStartEnd (s e : Option ℤ) : Bool :=
  match s, e with
  | none, _ => true
  | some _, none => true
  | some a, some b => decide (a < b)

/-- `TimeInterval.overlaps`: `start_a < end_b and start_b < end_a` with the
missing-bound substitutions. -/
def TimeInterval.overlaps (i j : TimeInterval) : Bool :=
  ltStartEnd i.start_time j.end_time && ltStartEnd j.start_time i.end_time

/-- `TimeInterval.modify`: rejects `start_time >= end_time` when both
arguments are supplied (raising before any mutation), then overwrites
whichever bounds were supplied.  The returned pair is the interval after the
call and the raised error, if any. -/
def TimeInterval.modify (i : TimeInterval) (s e : Option ℤ) : TimeInterval × Option String :=
  if (match s, e with | some a, some b => decide (b ≤ a) | _, _ => false) then
    (i, some "ValueError: start_time must be earlier than end_time")
  else
    (⟨match s with | some a => some a | none => i.start_time,
      match e with | some b => some b | none => i.end_time⟩, none)

/-- The parts of `TemporalRelation` that interval management reads and
writes: the `interval_truths` map (an insertion-ordered dict keyed by
interval object — intervals are distinct objects, so the dict behaves as an
association list receiving fresh keys) and `default_truth`. -/
structure TemporalRel where
  interval_truths : List (TimeInterval × TruthValue)
  default_truth : TruthValue
  deriving DecidableEq

/-- `TemporalRelation.add_interval`: scan all stored intervals for an
overlap, raising (without having mutated anything) on the first; otherwise
store the interval with the given truth value (defaulting to
`TruthValue()`, i.e. `UNKNOWN`).  The returned pair is the relation state
after the call and the raised error, if any. -/
def TemporalRel.addInterval (tr : TemporalRel) (i : TimeInterval)
    (tv : Option TruthValue) : TemporalRel × Option String :=
  if tr.interval_truths.any (fun p => i.overlaps p.1) then
    (tr, some "ValueError: New interval overlaps existing")
  else
    (⟨tr.interval_truths ++ [(i, tv.getD ⟨.UNKNOWN, .ALETHIC, none⟩)],
      tr.default_truth⟩, none)

/-- `TemporalRelation.truth_value_at`: the first stored interval containing
the moment decides the truth; otherwise `default_truth.evaluate()`. -/
def TemporalRel.truthValueAt (tr : TemporalRel) (moment : ℤ) : TruthState :=
  match tr.interval_truths.find? (fun p => p.1.containsM moment) with
  | none => tr.default_truth.evaluate
  | some p => p.2.evaluate

/-! ## quantifier.py — `QuantifiedRelation.instantiate` -/

/-- The `Quantifier` enum. -/
inductive Quantifier where
  | FORALL
  | EXISTS
  deriving DecidableEq, Repr

/-- A role value inside a relation template: a string (an entity name, or a
`$`-prefixed variable placeholder) or a literal Entity (by id). -/
inductive RoleV where
  | str (s : String)
  | ent (id : ℕ)
  deriving DecidableEq, Repr

/-- The `predicate` slot of a template: the documented form is a plain
string name; an actual `Predicate` object (id and name) is the only form
`Relation.__init__` accepts without raising. -/
inductive TPred where
  | str (s : String)
  | obj (id : ℕ) (name : String)
  deriving DecidableEq, Repr

/-- The payload of a relation template: a predicate slot and a role map. -/
structure Template where
  predicate : TPred
  roles : List (String × RoleV)
  deriving DecidableEq

/-- `relation_template` as a Python value: the documented (and test-suite)
form is a plain dict — on which the attribute accesses
`self.relation_template.predicate` / `.roles` raise `AttributeError` — or
an attribute-bearing object. -/
inductive PyTemplate where
  | dict (t : Template)
  | obj (t : Template)
  deriving DecidableEq

/-- `QuantifiedRelation` (`quantifier.py:11-31`): quantifier, upper-cased
variables, template, truth value. -/
structure QuantifiedRelation where
  quantifier : Quantifier
  varNames : List String
  relation_template : PyTemplate
  truth_value : TruthValue

/-- The concrete `Relation` constructed by `instantiate`:
`Relation(predicate_name, roles=roles_instantiated)`, keeping the
predicate object and the instantiated role map. -/
structure InstRel where
  predicateId : ℕ
  predicateName : String
  roles : List (String × RoleV)
  deriving DecidableEq

/-- `val.startswith("$")`: the string begins with the dollar sign (a
single-character prefix, tested on the character list so that it computes
by kernel reduction). -/
def startsWithDollar (s : String) : Bool :=
  match s.data with
  | [] => false
  | c :: _ => c = '$'

/-- The substitution loop of `instantiate`: a role value that is a string
starting with `$` is replaced by the bound entity from the keyword
arguments (raising `ValueError` when the variable is unbound); every other
value is copied literally. -/
def instRoles (roles : List (String × RoleV)) (bindings : List (String × ℕ)) :
    Except String (List (String × RoleV)) :=
  match roles with
  | [] => .ok []
  | (role, val) :: rest => do
    let v ← match val with
      | .str s =>
        if startsWithDollar s then
          let varName := s.drop 1
          match bindings.lookup varName with
          | some e => pure (RoleV.ent e)
          | none => Except.error ("ValueError: Missing variable " ++ varName)
        else pure (RoleV.str s)
      | .ent e => pure (RoleV.ent e)
    let vs ← instRoles rest bindings
    pure ((role, v) :: vs)

/-- `QuantifiedRelation.instantiate` (`quantifier.py:33-48`): reads
`self.relation_template.predicate` and `.roles` by attribute access (an
`AttributeError` on the documented dict form), substitutes the variables,
and constructs `Relation(predicate_name, roles=...)` — whose `__init__`
evaluates `predicate.name.upper()` and therefore raises when the predicate
slot holds a plain string. -/
def instantiate (qr : QuantifiedRelation) (bindings : List (String × ℕ)) :
    Except String InstRel :=
  match qr.relation_template with
  | .dict _ => .error "AttributeError: dict object has no attribute predicate"
  | .obj t => do
    let roles ← instRoles t.roles bindings
    match t.predicate with
    | .str _ => .error "AttributeError: str object has no attribute name"
    | .obj pid nm => .ok ⟨pid, pyUpper nm, roles⟩

/-- The quantified relation of the save/load test:
`FORALL X: EATS(DEX, $X)`, with the documented dict-shaped template. -/
def qrDict : QuantifiedRelation :=
  ⟨.FORALL, ["X"],
    .dict ⟨.str "EATS", [("subject", .str "DEX"), ("object", .str "$X")]⟩,
    ⟨.FALSE, .ALETHIC, none⟩⟩

/-! ## entity.py / ontology.py — `add_entity` -/

/-- The `aliases` argument as `Entity.__init__` may receive it: `None`, a
list of strings, or — as happens through `add_entity`'s positional call —
a plain string, which the comprehension `[a.upper() for a in (aliases or [])]`
then iterates character by character. -/
inductive PyAliases where
  | pyNone
  | pyList (xs : List String)
  | pyStr (s : String)
  deriving DecidableEq

/-- `[a.upper() for a in (aliases or [])]`. -/
def PyAliases.toUpperList : PyAliases → List String
  | .pyNone => []
  | .pyList xs => xs.map pyUpper
  | .pyStr s => s.data.map (fun c => pyUpper (String.singleton c))

/-- An `Entity`'s fields as set by `Entity.__init__` (the generated id and
the empty relations list are omitted). -/
structure Entity where
  name : String
  word_type : String
  parentIds : List ℕ
  aliases : List String
  description : Option String
  deriving DecidableEq

/-- `Entity.__init__(name, word_type, parents=None, aliases=None,
description=None)`. -/
def Entity.init (name wordType : String) (parents : Option (List ℕ))
    (aliases : PyAliases) (description : Option String) : Entity :=
  ⟨pyUpper name, pyUpper wordType, parents.getD [], aliases.toUpperList, description⟩

/-- The entity construction of `Ontology.add_entity`:
`e = Entity(name, word_type, parents, description)` — four positional
arguments, so the `description` argument lands in the `aliases` slot of
`Entity.__init__` and the entity's own `description` stays at its default
`None`.  (The subsequent duplicate-id check and registry insertion do not
touch these fields.) -/
def addEntity (name wordType : String) (parents : Option (List ℕ))
    (description : Option String) : Entity :=
  Entity.init name wordType parents
    (match description with | some s => .pyStr s | none => .pyNone) none

/-! ## save_load.py — serialization round trip

The persisted JSON document is modelled structurally (`SavedDoc`); the
in-memory objects carry the fields the serializers read.  Temporal
relations are outside this fragment: `load_ontology` dispatches on
`relation_type == "TEMPORAL"`, and the round-trip statement assumes no
relation uses that tag. -/

/-- An `Entity` as `save_load.py` sees it: `to_dict` fields plus the
`relations` list that loading appends to. -/
structure SLEntity where
  id : ℕ
  name : String
  word_type : String
  parentIds : List ℕ
  aliases : List String
  description : Option String
  relations : List ℕ
  deriving DecidableEq

/-- A `Predicate` for serialization: name, declared roles, inverse names. -/
structure SLPredicate where
  name : String
  roles : List String
  inverses : List String
  deriving DecidableEq

/-- A plain (non-temporal) `Relation` for serialization: id, predicate
name, role→entity-id map, relation type, optional context relation id,
truth value. -/
structure SLRel where
  id : ℕ
  predicateName : String
  roles : List (String × ℕ)
  relationType : String
  contextId : Option ℕ
  truthValue : TruthValue
  deriving DecidableEq

/-- The dict shape of a quantified-relation template (a predicate name and
a role map of strings), serialized verbatim. -/
structure QTemplate where
  predicate : String
  roles : List (String × String)
  deriving DecidableEq

/-- A `QuantifiedRelation` for serialization. -/
structure SLQuant where
  quantifier : Quantifier
  varNames : List String
  template : QTemplate
  truthValue : TruthValue
  deriving DecidableEq

/-- The in-memory ontology as `save_ontology`/`load_ontology` see it. -/
structure SLOntology where
  entities : List SLEntity
  predicates : List SLPredicate
  relations : List SLRel
  quantified : List SLQuant

/-- Modelled from the spec: the persisted form of a truth value.
`TruthValue.to_dict` / `TruthValue.from_dict` are called by
`Relation.to_dict`, `QuantifiedRelation.to_dict` and their `from_dict`
counterparts, but no definition of them exists anywhere under `src/`;
spec §6 gives the persisted truth value as `{state-code, certainty}`. -/
structure TVDict where
  state : String
  certainty : Option ℚ
  deriving DecidableEq

/-- The state code written for each `TruthState`. -/
def stateName : TruthState → String
  | .TRUE => "TRUE"
  | .FALSE => "FALSE"
  | .UNKNOWN => "UNKNOWN"
  | .SUPERPOSITION => "SUPERPOSITION"

/-- Modelled from the spec: `TruthValue.to_dict` (missing from `src/`),
writing the state code and the optional probability. -/
def TruthValue.toDict (tv : TruthValue) : TVDict :=
  ⟨stateName tv.value, tv.probability⟩

/-- Parse a state code back. -/
def stateOfName (s : String) : Option TruthState :=
  if s = "TRUE" then some .TRUE
  else if s = "FALSE" then some .FALSE
  else if s = "UNKNOWN" then some .UNKNOWN
  else if s = "SUPERPOSITION" then some .SUPERPOSITION
  else none

/-- Modelled from the spec: `TruthValue.from_dict` (missing from `src/`),
the inverse of `TruthValue.toDict`; the modality is not persisted and comes
back as the default `ALETHIC`. -/
def tvFromDict (d : TVDict) : Except String TruthValue :=
  match stateOfName d.state with
  | some s => .ok ⟨s, .ALETHIC, d.certainty⟩
  | none => .error "KeyError: unknown truth state code"

/-- `entities` entry of the saved document (`Entity.to_dict`). -/
structure EntDict where
  id : ℕ
  name : String
  word_type : String
  parents : List ℕ
  aliases : List String
  description : Option String
  deriving DecidableEq

/-- `predicates` entry (`Predicate.to_dict`). -/
structure PredDict where
  name : String
  roles : List String
  inverses : List String
  deriving DecidableEq

/-- `relations` entry (`Relation.to_dict`). -/
structure RelDict where
  id : ℕ
  predicate : String
  roles : List (String × ℕ)
  relation_type : String
  context : Option ℕ
  truth_value : Option TVDict
  deriving DecidableEq

/-- `quantified_relations` entry (`QuantifiedRelation.to_dict`). -/
structure QuantDict where
  quantifier : String
  varNames : List String
  template : QTemplate
  truth_value : TVDict
  deriving DecidableEq

/-- The four top-level collections of the saved document. -/
structure SavedDoc where
  entities : List EntDict
  predicates : List PredDict
  relations : List RelDict
  quantified_relations : List QuantDict

/-- `Entity.to_dict`. -/
def SLEntity.toDict (e : SLEntity) : EntDict :=
  ⟨e.id, e.name, e.word_type, e.parentIds, e.aliases, e.description⟩

/-- `Predicate.to_dict`. -/
def SLPredicate.toDict (p : SLPredicate) : PredDict :=
  ⟨p.name, p.roles, p.inverses⟩

/-- `Relation.to_dict` (`relation.py:127-135`). -/
def SLRel.toDict (r : SLRel) : RelDict :=
  ⟨r.id, r.predicateName, r.roles, r.relationType, r.contextId,
    some r.truthValue.toDict⟩

/-- The name of a `Quantifier` member. -/
def quantName : Quantifier → String
  | .FORALL => "FORALL"
  | .EXISTS => "EXISTS"

/-- `Quantifier[name]`: enum lookup by member name, a `KeyError` when the
name is unknown. -/
def quantOfName (s : String) : Except String Quantifier :=
  if s = "FORALL" then .ok .FORALL
  else if s = "EXISTS" then .ok .EXISTS
  else .error "KeyError: not a Quantifier member"

/-- `QuantifiedRelation.to_dict`. -/
def SLQuant.toDict (q : SLQuant) : QuantDict :=
  ⟨quantName q.quantifier, q.varNames, q.template, q.truthValue.toDict⟩

/-- `save_ontology` (without the file write): the saved document. -/
def saveOntology (o : SLOntology) : SavedDoc :=
  ⟨o.entities.map SLEntity.toDict, o.predicates.map SLPredicate.toDict,
    o.relations.map SLRel.toDict, o.quantified.map SLQuant.toDict⟩

/-- `Entity.from_dict` as `load_ontology` calls it — without an ontology
argument, so the parent ids are dropped; the constructor re-uppercases the
name, word type and aliases; `relations` starts empty. -/
def entFromDict (d : EntDict) : SLEntity :=
  ⟨d.id, pyUpper d.name, pyUpper d.word_type, [], d.aliases.map pyUpper,
    d.description, []⟩

/-- `Predicate.from_dict` without an ontology: the inverses are dropped. -/
def predFromDict (d : PredDict) : SLPredicate :=
  ⟨pyUpper d.name, d.roles, []⟩

/-- The role resolution of `Relation.from_dict`:
`{role: ontology.entities[entity_id] ...}` — a `KeyError` when an entity id
is missing.  The resolved entity is stored back by its id. -/
def resolveRoles (roles : List (String × ℕ)) (ents : List SLEntity) :
    Except String (List (String × ℕ)) :=
  match roles with
  | [] => .ok []
  | (role, eid) :: rest =>
    match ents.find? (fun e => e.id = eid) with
    | some e => do
      let others ← resolveRoles rest ents
      pure ((role, e.id) :: others)
    | none => .error "KeyError: entity id not found"

/-- `Relation.from_dict` (`relation.py:137-153`): resolve the predicate by
name (a `ValueError` when absent), resolve the role entities, resolve the
optional context among the already-loaded relations (silently `None` when
absent), parse the truth value (defaulting to `UNKNOWN` when the field is
null), and restore the id. -/
def relFromDict (d : RelDict) (preds : List SLPredicate) (ents : List SLEntity)
    (rels : List SLRel) : Except String SLRel := do
  let pred ← match preds.find? (fun p => p.name = d.predicate) with
    | some p => pure p
    | none => Except.error ("ValueError: Predicate " ++ d.predicate ++ " not found in ontology.")
  let roles ← resolveRoles d.roles ents
  let context := match d.context with
    | some cid => (rels.find? (fun r => r.id = cid)).map SLRel.id
    | none => none
  let tv ← match d.truth_value with
    | some td => tvFromDict td
    | none => pure (⟨.UNKNOWN, .ALETHIC, none⟩ : TruthValue)
  pure ⟨d.id, pred.name, roles, pyUpper d.relation_type, context, tv⟩

/-- The attachment loop of `load_ontology`:
`for e in r.roles.values(): e.relations.append(r)`. -/
def attachRel (rid : ℕ) (roleVals : List ℕ) (ents : List SLEntity) : List SLEntity :=
  roleVals.foldl (fun es eid =>
    es.map (fun e =>
      if e.id = eid then
        ⟨e.id, e.name, e.word_type, e.parentIds, e.aliases, e.description,
          e.relations ++ [rid]⟩
      else e)) ents

/-- The relation-loading loop of `load_ontology`: dispatch on the
`"TEMPORAL"` tag (temporal deserialization is outside this fragment),
deserialize, register, and attach to the role entities. -/
def loadRelations (preds : List SLPredicate) :
    List RelDict → List SLEntity → List SLRel →
      Except String (List SLEntity × List SLRel)
  | [], ents, rels => .ok (ents, rels)
  | d :: rest, ents, rels =>
    if d.relation_type = "TEMPORAL" then
      .error "TemporalRelation.from_dict: outside the modelled fragment"
    else do
      let r ← relFromDict d preds ents rels
      loadRelations preds rest (attachRel r.id (r.roles.map Prod.snd) ents) (rels ++ [r])

/-- `QuantifiedRelation.from_dict`: parse the quantifier member by name,
keep the template verbatim, parse the truth value; the constructor
re-uppercases the variables. -/
def quantFromDict (d : QuantDict) : Except String SLQuant := do
  let q ← quantOfName d.quantifier
  let tv ← tvFromDict d.truth_value
  pure ⟨q, d.varNames.map pyUpper, d.template, tv⟩

/-- The quantified-relation loading loop of `load_ontology`. -/
def loadQuants : List QuantDict → Except String (List SLQuant)
  | [] => .ok []
  | d :: rest => do
    let q ← quantFromDict d
    let qs ← loadQuants rest
    pure (q :: qs)

/-- `load_ontology` (without the file read): entities, then predicates,
then relations (with entity attachment), then quantified relations. -/
def loadOntology (doc : SavedDoc) : Except String SLOntology := do
  let ents := doc.entities.map entFromDict
  let preds := doc.predicates.map predFromDict
  let (ents2, rels) ← loadRelations preds doc.relations ents []
  let quants ← loadQuants doc.quantified_relations
  pure ⟨ents2, preds, rels, quants⟩

/-- The operand list for the C2 witness: a `TRUE` relation and a context
evaluating to `UNKNOWN`. -/
def witnessArgs : List SCond :=
  [.rel (.mk ⟨.TRUE, .ALETHIC, none⟩ none),
   .rctx (.mk (.callableTV ⟨.UNKNOWN, .ALETHIC, none⟩))]

/-- A second operand list for the C2 witness: a single context evaluating
to a `SUPERPOSITION` truth value carrying a probability. -/
def witnessArgsS : List SCond :=
  [.rctx (.mk (.callableTV ⟨.SUPERPOSITION, .ALETHIC, some (7/10)⟩))]

/-- The temporal relation of the interval-exclusivity witness:
`[0, 30) = TRUE` with default `UNKNOWN`. -/
def tr0 : TemporalRel :=
  ⟨[(⟨some 0, some 30⟩, ⟨.TRUE, .ALETHIC, none⟩)], ⟨.UNKNOWN, .ALETHIC, none⟩⟩

/-- The round-trip test scenario: entities DEX and FOOD, a relation
`EATS(DEX, FOOD) = TRUE`, and the two quantified relations
`FORALL X: EATS(DEX, $X) = FALSE` and `EXISTS Y: EATS(DEX, $Y) = TRUE`. -/
def oTest : SLOntology :=
  ⟨[⟨1, "DEX", "NOUN", [], [], none, [10]⟩,
    ⟨2, "FOOD", "NOUN", [], [], none, [10]⟩],
   [⟨"EATS", [], []⟩],
   [⟨10, "EATS", [("subject", 1), ("object", 2)], "GENERAL", none,
     ⟨.TRUE, .ALETHIC, none⟩⟩],
   [⟨.FORALL, ["X"], ⟨"EATS", [("subject", "DEX"), ("object", "$X")]⟩,
     ⟨.FALSE, .ALETHIC, none⟩⟩,
    ⟨.EXISTS, ["Y"], ⟨"EATS", [("subject", "DEX"), ("object", "$Y")]⟩,
     ⟨.TRUE, .ALETHIC, none⟩⟩]⟩

/-! ### Theorems -/

theorem reach_trans {n : ℕ} {g : Fin n → List (Fin n)} {a b c : Fin n}
    (hab : Reach g a b) (hbc : Reach g b c) : Reach g a c := by
  induction hbc with
  | parent h => exact hab.step h
  | step _ h ih => exact ih.step h

/-- Unfolding `gaaWalk` when the head of the parent list was already seen. -/
theorem gaaWalk_cons_of_mem {n : ℕ} (g : Fin n → List (Fin n)) {p : Fin n}
    (ps : List (Fin n)) {seen : Finset (Fin n)} (h : p ∈ seen) :
    gaaWalk g (p :: ps) seen = gaaWalk g ps seen := by
  rw [gaaWalk]
  simp [h]

/-- Unfolding `gaaWalk` when the head of the parent list is new: it is
inserted into `seen`, its own parent list is walked, and then the rest. -/
theorem gaaWalk_cons_of_not_mem {n : ℕ} (g : Fin n → List (Fin n)) {p : Fin n}
    (ps : List (Fin n)) {seen : Finset (Fin n)} (h : p ∉ seen) :
    (gaaWalk g (p :: ps) seen).val =
      (gaaWalk g ps (gaaWalk g (g p) (insert p seen)).val).val := by
  rw [gaaWalk]
  simp [h]

/-- Soundness of the walk: everything it returns was either already seen or
is reachable (in zero or more further steps) from a member of the list. -/
theorem gaaWalk_sound {n : ℕ} (g : Fin n → List (Fin n))
    (l : List (Fin n)) (seen : Finset (Fin n)) :
    ∀ x ∈ (gaaWalk g l seen).val,
      x ∈ seen ∨ ∃ p ∈ l, x = p ∨ Reach g p x := by
  induction l, seen using gaaWalk.induct g with
  | case1 seen =>
    intro x hx
    rw [gaaWalk] at hx
    exact Or.inl hx
  | case2 p ps seen h ih =>
    intro x hx
    rw [gaaWalk_cons_of_mem g ps h] at hx
    rcases ih x hx with hs | ⟨q, hq, hxq⟩
    · exact Or.inl hs
    · exact Or.inr ⟨q, List.mem_cons_of_mem p hq, hxq⟩
  | case3 p ps seen h inner ihInner ihOuterLet ihOuter =>
    intro x hx
    rw [gaaWalk_cons_of_not_mem g ps h] at hx
    rcases ihOuter x hx with hIn | ⟨q, hq, hxq⟩
    · rcases ihInner x hIn with hIns | ⟨q, hq, hxq⟩
      · rcases Finset.mem_insert.mp hIns with hxp | hxs
        · exact Or.inr ⟨p, List.mem_cons_self p ps, Or.inl hxp⟩
        · exact Or.inl hxs
      · refine Or.inr ⟨p, List.mem_cons_self p ps, Or.inr ?_⟩
        rcases hxq with rfl | hr
        · exact Reach.parent hq
        · exact reach_trans (Reach.parent hq) hr
    · exact Or.inr ⟨q, List.mem_cons_of_mem p hq, hxq⟩

/-- Every member of the walked list ends up in the result. -/
theorem gaaWalk_mem_list {n : ℕ} (g : Fin n → List (Fin n))
    (l : List (Fin n)) (seen : Finset (Fin n)) :
    ∀ p ∈ l, p ∈ (gaaWalk g l seen).val := by
  induction l, seen using gaaWalk.induct g with
  | case1 seen => intro p hp; simp at hp
  | case2 p ps seen h ih =>
    intro q hq
    rw [gaaWalk_cons_of_mem g ps h]
    rcases List.mem_cons.mp hq with rfl | hq'
    · exact (gaaWalk g ps seen).property h
    · exact ih q hq'
  | case3 p ps seen h inner ihInner ihOuterLet ihOuter =>
    intro q hq
    rw [gaaWalk_cons_of_not_mem g ps h]
    rcases List.mem_cons.mp hq with rfl | hq'
    · exact (gaaWalk g ps _).property
        ((gaaWalk g (g q) (insert q seen)).property (Finset.mem_insert_self q seen))
    · exact ihOuter q hq'

/-- Closure of the walk: any node first visited during the walk has all of
its parents in the result. -/
theorem gaaWalk_closed {n : ℕ} (g : Fin n → List (Fin n))
    (l : List (Fin n)) (seen : Finset (Fin n)) :
    ∀ x ∈ (gaaWalk g l seen).val, x ∉ seen →
      ∀ q ∈ g x, q ∈ (gaaWalk g l seen).val := by
  induction l, seen using gaaWalk.induct g with
  | case1 seen =>
    intro x hx hxs
    rw [gaaWalk] at hx
    exact absurd hx hxs
  | case2 p ps seen h ih =>
    intro x hx hxs q hq
    rw [gaaWalk_cons_of_mem g ps h] at hx ⊢
    exact ih x hx hxs q hq
  | case3 p ps seen h inner ihInner ihOuterLet ihOuter =>
    intro x hx hxs q hq
    rw [gaaWalk_cons_of_not_mem g ps h] at hx ⊢
    by_cases hxInner : x ∈ (gaaWalk g (g p) (insert p seen)).val
    · by_cases hxp : x = p
      · subst hxp
        exact (gaaWalk g ps _).property (gaaWalk_mem_list g (g x) (insert x seen) q hq)
      · have hxni : x ∉ insert p seen := by
          intro hmem
          rcases Finset.mem_insert.mp hmem with h1 | h2
          · exact hxp h1
          · exact hxs h2
        exact (gaaWalk g ps _).property (ihInner x hxInner hxni q hq)
    · exact ihOuter x hx hxInner q hq

/-- **C3.** For every entity whose parent graph is a finite DAG (witnessed
by a topological rank), including diamonds where the same ancestor is
reachable along several parent paths, `get_all_ancestors` terminates (it is
a total function in this embedding, defined by the decreasing measure of
unvisited entities) and returns a duplicate-free set (a `Finset`) whose
members are exactly the entities reachable from `e` via one or more parent
edges. -/
theorem getAllAncestors_eq_reachable {n : ℕ} (g : Fin n → List (Fin n))
    (rank : Fin n → ℕ) (hrank : ∀ x, ∀ p ∈ g x, rank p < rank x)
    (e x : Fin n) :
    x ∈ getAllAncestors g e ↔ Reach g e x := by
  constructor
  · intro hx
    rcases gaaWalk_sound g (g e) ∅ x hx with hs | ⟨q, hq, hxq⟩
    · simp at hs
    · rcases hxq with rfl | hr
      · exact Reach.parent hq
      · exact reach_trans (Reach.parent hq) hr
  · intro hr
    induction hr with
    | parent h => exact gaaWalk_mem_list g (g e) ∅ _ h
    | step _ h ih =>
      exact gaaWalk_closed g (g e) ∅ _ ih (by simp) _ h

/-- `addDependent` only touches the `dependents` field, so the
deduplication test is unaffected. -/
theorem relMatches_addDependent {n : ℕ} (pred : ℕ) (roles : List (String × Fin n))
    (ctx : Option CtxRef) (cid rid : ℕ) (ex : Rel n) :
    relMatches pred roles ctx (addDependent cid rid ex) = relMatches pred roles ctx ex := by
  unfold addDependent
  split <;> simp [relMatches]

/-- The relation registry produced by a creating `add_relation` call has the
old relations (dependents possibly updated) followed by the new relation. -/
theorem find?_rels1_none {n : ℕ} (pred : ℕ) (roles : List (String × Fin n))
    (ctx : Option CtxRef) (rid : ℕ) (rels : List (Rel n))
    (h : rels.find? (relMatches pred roles ctx) = none) :
    (match ctx with
      | some (.relation cid) => rels.map (addDependent cid rid)
      | _ => rels).find? (relMatches pred roles ctx) = none := by
  have hall := List.find?_eq_none.mp h
  apply List.find?_eq_none.mpr
  intro x hx
  split at hx
  · rcases List.mem_map.mp hx with ⟨y, hy, rfl⟩
    rw [relMatches_addDependent]
    exact hall y hy
  · exact hall x hx

/-- **C4.** Calling `add_relation` twice on the same ontology with identical
predicate, roles and context returns the same relation both times, and the
relation count does not increase on the second call. -/
theorem addRelation_idempotent {n : ℕ} (o : Ontology n) (pred : ℕ)
    (roles : List (String × Fin n)) (rtype : String) (ctx : Option CtxRef)
    (tv : Option TruthValue) :
    (addRelation (addRelation o pred roles rtype ctx tv).2 pred roles rtype ctx tv).1 =
        (addRelation o pred roles rtype ctx tv).1 ∧
      (addRelation (addRelation o pred roles rtype ctx tv).2 pred roles
            rtype ctx tv).2.relations.length =
        (addRelation o pred roles rtype ctx tv).2.relations.length := by
  cases hfind : o.relations.find? (relMatches pred roles ctx) with
  | some ex =>
    simp [addRelation, hfind]
  | none =>
    have hmatch : relMatches pred roles ctx
        ⟨o.nextId, pred, roles, pyUpper rtype, ctx,
          tv.getD ⟨.UNKNOWN, .ALETHIC, none⟩, ∅⟩ = true := by
      simp [relMatches]
    have hnone := find?_rels1_none pred roles ctx o.nextId o.relations hfind
    simp only [addRelation, hfind, propagateRelationToDescendants]
    rw [List.find?_append]
    simp [hnone, hmatch]

/-- **C5 (counterexample).** The claim that a newly created relation is
attached at most once to any entity fails when the same entity fills two
roles: the attachment loop `for e in roles.values(): e.relations.append(r)`
appends once per role, so with roles `{"a": E0, "b": E0}` the relation ends
up twice in `E0.relations`. -/
theorem addRelation_attach_counterexample :
    (((addRelation onto1 0 [("a", (0 : Fin 1)), ("b", 0)] "GENERAL" none none).2.entRels 0).count
        (addRelation onto1 0 [("a", (0 : Fin 1)), ("b", 0)] "GENERAL" none none).1.id) = 2 := by
  have hanc : ∀ e : Fin 1, getAllAncestors (fun _ : Fin 1 => ([] : List (Fin 1))) e = ∅ := by
    intro e
    unfold getAllAncestors
    rw [gaaWalk]
  simp [addRelation, onto1, relMatches, propagateRelationToDescendants,
    Ontology.ancestors, attachToRoles, hanc]

/-- Unfolding the attachment loop: each entity's relation list gains one
copy of the new id per occurrence of the entity among the role values. -/
theorem attachToRoles_eq {n : ℕ} (rid : ℕ) (roles : List (String × Fin n))
    (f : Fin n → List ℕ) (e : Fin n) :
    attachToRoles rid roles f e = f e ++ List.replicate ((roles.map Prod.snd).count e) rid := by
  induction roles generalizing f with
  | nil => simp [attachToRoles]
  | cons hd tl ih =>
    have hstep : attachToRoles rid (hd :: tl) f =
        attachToRoles rid tl (fun x => if x = hd.2 then f x ++ [rid] else f x) := rfl
    rw [hstep, ih]
    by_cases he : e = hd.2
    · simp [he, List.count_cons, List.replicate_succ]
    · simp [he, List.count_cons, Ne.symm he]

/-- Behaviour of one propagation pass after a relation was attached at most
once per entity: every entity with a role participant among its ancestors
ends up with the relation, no entity holds it more than once, and a second
propagation pass is a no-op. -/
theorem propagate_after_attach {n : ℕ} (o1 : Ontology n) (r : Rel n)
    (hcount : ∀ e, (o1.entRels e).count r.id ≤ 1) :
    (∀ e, (∃ a ∈ r.roles.map Prod.snd, a ∈ o1.ancestors e) →
        r.id ∈ (propagateRelationToDescendants o1 r).entRels e) ∧
      (∀ e, ((propagateRelationToDescendants o1 r).entRels e).count r.id ≤ 1) ∧
      propagateRelationToDescendants (propagateRelationToDescendants o1 r) r =
        propagateRelationToDescendants o1 r := by
  have hmem : ∀ e, (∃ a ∈ r.roles.map Prod.snd, a ∈ o1.ancestors e) →
      r.id ∈ (propagateRelationToDescendants o1 r).entRels e := by
    intro e hc
    by_cases hmem : r.id ∈ o1.entRels e
    · simp only [propagateRelationToDescendants]
      split <;> simp [hmem]
    · simp only [propagateRelationToDescendants]
      rw [if_pos ⟨hc, hmem⟩]
      simp
  refine ⟨hmem, ?_, ?_⟩
  · intro e
    simp only [propagateRelationToDescendants]
    split
    · next hcond =>
      have h0 : (o1.entRels e).count r.id = 0 := List.count_eq_zero.mpr hcond.2
      simp [List.count_append, h0]
    · exact hcount e
  · have hent : (fun e =>
        if (∃ a ∈ r.roles.map Prod.snd,
              a ∈ (propagateRelationToDescendants o1 r).ancestors e) ∧
            r.id ∉ (propagateRelationToDescendants o1 r).entRels e then
          (propagateRelationToDescendants o1 r).entRels e ++ [r.id]
        else (propagateRelationToDescendants o1 r).entRels e) =
        (propagateRelationToDescendants o1 r).entRels := by
      funext e
      rw [if_neg]
      rintro ⟨hc, hnotin⟩
      exact hnotin (hmem e hc)
    show Ontology.mk _ _ _ _ = _
    rw [hent]

/-- **C5 (amended).** After `add_relation` creates a new relation, every
currently registered entity with a role participant among its ancestors has
the relation in its relation list, and — provided no entity fills two roles
of the relation — it is attached at most once to any entity; re-running
propagation never creates duplicate attachments.  (Without the
injective-roles proviso, the attachment loop appends once per role, see the
counterexample.)  `hfresh` states that the generated id is fresh, which
models Python object identity of the newly constructed relation. -/
theorem addRelation_propagation_amended {n : ℕ} (o : Ontology n) (pred : ℕ)
    (roles : List (String × Fin n)) (rtype : String) (ctx : Option CtxRef)
    (tv : Option TruthValue)
    (hnew : o.relations.find? (relMatches pred roles ctx) = none)
    (hfresh : ∀ e, o.nextId ∉ o.entRels e)
    (hnodup : (roles.map Prod.snd).Nodup) :
    (∀ e : Fin n, (∃ a ∈ roles.map Prod.snd, a ∈ o.ancestors e) →
        (addRelation o pred roles rtype ctx tv).1.id ∈
          (addRelation o pred roles rtype ctx tv).2.entRels e) ∧
      (∀ e : Fin n,
        ((addRelation o pred roles rtype ctx tv).2.entRels e).count
            (addRelation o pred roles rtype ctx tv).1.id ≤ 1) ∧
      propagateRelationToDescendants (addRelation o pred roles rtype ctx tv).2
          (addRelation o pred roles rtype ctx tv).1 =
        (addRelation o pred roles rtype ctx tv).2 := by
  have hr : addRelation o pred roles rtype ctx tv =
      (⟨o.nextId, pred, roles, pyUpper rtype, ctx,
          tv.getD ⟨.UNKNOWN, .ALETHIC, none⟩, ∅⟩,
        propagateRelationToDescendants
          ⟨o.parents, attachToRoles o.nextId roles o.entRels,
            (match ctx with
              | some (.relation cid) => o.relations.map (addDependent cid o.nextId)
              | _ => o.relations) ++
              [⟨o.nextId, pred, roles, pyUpper rtype, ctx,
                tv.getD ⟨.UNKNOWN, .ALETHIC, none⟩, ∅⟩],
            o.nextId + 1⟩
          ⟨o.nextId, pred, roles, pyUpper rtype, ctx,
            tv.getD ⟨.UNKNOWN, .ALETHIC, none⟩, ∅⟩) := by
    rw [addRelation, hnew]
  rw [hr]
  dsimp only
  have hcount : ∀ e, ((attachToRoles o.nextId roles o.entRels) e).count o.nextId ≤ 1 := by
    intro e
    rw [attachToRoles_eq]
    have h0 : (o.entRels e).count o.nextId = 0 := List.count_eq_zero.mpr (hfresh e)
    have h1 : ((roles.map Prod.snd).count e) ≤ 1 :=
      List.nodup_iff_count_le_one.mp hnodup e
    rcases Nat.le_one_iff_eq_zero_or_eq_one.mp h1 with h | h <;>
      simp [List.count_append, h0, h]
  exact propagate_after_attach
    ⟨o.parents, attachToRoles o.nextId roles o.entRels,
      (match ctx with
        | some (.relation cid) => o.relations.map (addDependent cid o.nextId)
        | _ => o.relations) ++
        [⟨o.nextId, pred, roles, pyUpper rtype, ctx,
          tv.getD ⟨.UNKNOWN, .ALETHIC, none⟩, ∅⟩],
      o.nextId + 1⟩
    ⟨o.nextId, pred, roles, pyUpper rtype, ctx,
      tv.getD ⟨.UNKNOWN, .ALETHIC, none⟩, ∅⟩
    hcount

/-- Witness for C5 (amended): in the fresh two-entity ontology where `0`
has parent `1`, asserting a relation with role entity `1` attaches it to
entity `0` by propagation. -/
theorem addRelation_propagation_amended_witness :
    (addRelation ontoW 0 [("subject", (1 : Fin 2))] "GENERAL" none none).1.id ∈
      (addRelation ontoW 0 [("subject", (1 : Fin 2))] "GENERAL" none none).2.entRels 0 := by
  have h := addRelation_propagation_amended ontoW 0 [("subject", (1 : Fin 2))] "GENERAL"
    none none rfl (fun _ => List.not_mem_nil 0) (by decide)
  refine h.1 0 ⟨1, by decide, ?_⟩
  exact gaaWalk_mem_list parentsW (parentsW 0) ∅ 1 (by decide)

/-- **C1.** `evaluate_truth` resolves a `Relation` context by recursion, a
callable context by its result, a plain value by wrapping it in a
`TruthValue` (whose `.value` is the plain value back), and no context by the
stored truth value — but the `RelationContext` branch calls the nonexistent
method `RelationContext.evaluate_truth` and raises `AttributeError`, even
though the same context object evaluates fine through its own `evaluate`. -/
theorem evaluateTruth_context_chain :
    evalTruth (.mk ⟨.UNKNOWN, .ALETHIC, none⟩
        (some (.rctx (.mk (.callableTV ⟨.TRUE, .ALETHIC, none⟩))))) =
      .error "AttributeError: RelationContext object has no attribute evaluate_truth" ∧
    evalCtx (.mk (.callableTV ⟨.TRUE, .ALETHIC, none⟩)) =
      .ok (.norm ⟨.TRUE, .ALETHIC, none⟩) ∧
    evalTruth (.mk ⟨.UNKNOWN, .ALETHIC, none⟩
        (some (.rel (.mk ⟨.FALSE, .ALETHIC, none⟩ none)))) = .ok (.ts .FALSE) ∧
    evalTruth (.mk ⟨.UNKNOWN, .ALETHIC, none⟩ (some (.callback .TRUE))) =
      .ok (.ts .TRUE) ∧
    evalTruth (.mk ⟨.UNKNOWN, .ALETHIC, none⟩ (some (.rawBool true))) =
      .ok (.rawB true) ∧
    evalTruth (.mk ⟨.FALSE, .ALETHIC, none⟩ none) = .ok (.ts .FALSE) := by
  refine ⟨?_, ?_, ?_, ?_, ?_, ?_⟩ <;> simp [evalTruth, evalCtx, evalCond]

/-- Operand lists of well-formed `TruthValue`s: `any` over the wrapped list
is `any` of the state test. -/
theorem any_norm_isState (tvs : List TruthValue) (t : TruthState) :
    (tvs.map PyTV.norm).any (fun v => v.isState t) =
      tvs.any (fun tv => decide (tv.value = t)) := by
  induction tvs with
  | nil => rfl
  | cons hd tl ih =>
    simp only [List.map_cons, List.any_cons, ih]
    rfl

/-- `all` over the wrapped list is `all` of the state test. -/
theorem all_norm_isState (tvs : List TruthValue) (t : TruthState) :
    (tvs.map PyTV.norm).all (fun v => v.isState t) =
      tvs.all (fun tv => decide (tv.value = t)) := by
  induction tvs with
  | nil => rfl
  | cons hd tl ih =>
    simp only [List.map_cons, List.all_cons, ih]
    rfl

/-- `countP` over the wrapped list counts the state test. -/
theorem countP_norm_isState (tvs : List TruthValue) (t : TruthState) :
    (tvs.map PyTV.norm).countP (fun v => v.isState t) =
      tvs.countP (fun tv => decide (tv.value = t)) := by
  induction tvs with
  | nil => rfl
  | cons hd tl ih =>
    simp only [List.map_cons, List.countP_cons, ih]
    rfl

/-- **C2.** `RelationContext` evaluation of an operator node: NOT swaps
`TRUE` and `FALSE` and passes `UNKNOWN` and `SUPERPOSITION` through
unchanged (the very same `TruthValue` object); and for operand lists whose
evaluated values all lie in `{TRUE, FALSE, UNKNOWN}`: AND returns `FALSE`
if any operand is `FALSE`, `TRUE` only if all operands are `TRUE`, and
`UNKNOWN` otherwise; OR returns `TRUE` if any operand is `TRUE`, `FALSE`
only if all operands are `FALSE`, and `UNKNOWN` otherwise; XOR returns
`UNKNOWN` if any operand is `UNKNOWN`, and otherwise `TRUE` iff an odd
number of operands are `TRUE`. -/
theorem relationContext_operator_semantics (args : List SCond) (tvs : List TruthValue)
    (hev : evalArgs args = .ok (tvs.map PyTV.norm)) :
    (∀ tv0 rest, tvs = tv0 :: rest →
      (tv0.value = .TRUE →
        evalCond (.tree "NOT" args) = .ok (.norm ⟨.FALSE, .ALETHIC, none⟩)) ∧
      (tv0.value = .FALSE →
        evalCond (.tree "NOT" args) = .ok (.norm ⟨.TRUE, .ALETHIC, none⟩)) ∧
      (tv0.value = .UNKNOWN ∨ tv0.value = .SUPERPOSITION →
        evalCond (.tree "NOT" args) = .ok (.norm tv0))) ∧
    ((∀ tv ∈ tvs, tv.value ≠ .SUPERPOSITION) →
      ((∃ tv ∈ tvs, tv.value = .FALSE) →
        evalCond (.tree "AND" args) = .ok (.norm ⟨.FALSE, .ALETHIC, none⟩)) ∧
      ((∀ tv ∈ tvs, tv.value = .TRUE) →
        evalCond (.tree "AND" args) = .ok (.norm ⟨.TRUE, .ALETHIC, none⟩)) ∧
      ((¬ ∃ tv ∈ tvs, tv.value = .FALSE) → (¬ ∀ tv ∈ tvs, tv.value = .TRUE) →
        evalCond (.tree "AND" args) = .ok (.norm ⟨.UNKNOWN, .ALETHIC, none⟩)) ∧
      ((∃ tv ∈ tvs, tv.value = .TRUE) →
        evalCond (.tree "OR" args) = .ok (.norm ⟨.TRUE, .ALETHIC, none⟩)) ∧
      ((∀ tv ∈ tvs, tv.value = .FALSE) →
        evalCond (.tree "OR" args) = .ok (.norm ⟨.FALSE, .ALETHIC, none⟩)) ∧
      ((¬ ∃ tv ∈ tvs, tv.value = .TRUE) → (¬ ∀ tv ∈ tvs, tv.value = .FALSE) →
        evalCond (.tree "OR" args) = .ok (.norm ⟨.UNKNOWN, .ALETHIC, none⟩)) ∧
      ((∃ tv ∈ tvs, tv.value = .UNKNOWN) →
        evalCond (.tree "XOR" args) = .ok (.norm ⟨.UNKNOWN, .ALETHIC, none⟩)) ∧
      ((¬ ∃ tv ∈ tvs, tv.value = .UNKNOWN) →
        evalCond (.tree "XOR" args) =
          .ok (.norm ⟨if (tvs.countP (fun tv => decide (tv.value = .TRUE))) % 2 = 1
            then .TRUE else .FALSE, .ALETHIC, none⟩))) := by
  have hnot : evalCond (.tree "NOT" args) =
      match tvs.map PyTV.norm with
      | [] => .error "IndexError: list index out of range"
      | v :: _ =>
        if v.isState .TRUE then .ok (.norm ⟨.FALSE, .ALETHIC, none⟩)
        else if v.isState .FALSE then .ok (.norm ⟨.TRUE, .ALETHIC, none⟩)
        else .ok v := by
    simp only [evalCond]
    rw [hev]
    rfl
  have hand : evalCond (.tree "AND" args) =
      (if (tvs.map PyTV.norm).any (fun v => v.isState .FALSE) then
        Except.ok (.norm ⟨.FALSE, .ALETHIC, none⟩)
      else if (tvs.map PyTV.norm).all (fun v => v.isState .TRUE) then
        .ok (.norm ⟨.TRUE, .ALETHIC, none⟩)
      else .ok (.norm ⟨.UNKNOWN, .ALETHIC, none⟩)) := by
    simp only [evalCond]
    rw [hev]
    rfl
  have hor : evalCond (.tree "OR" args) =
      (if (tvs.map PyTV.norm).any (fun v => v.isState .TRUE) then
        Except.ok (.norm ⟨.TRUE, .ALETHIC, none⟩)
      else if (tvs.map PyTV.norm).all (fun v => v.isState .FALSE) then
        .ok (.norm ⟨.FALSE, .ALETHIC, none⟩)
      else .ok (.norm ⟨.UNKNOWN, .ALETHIC, none⟩)) := by
    simp only [evalCond]
    rw [hev]
    rfl
  have hxor : evalCond (.tree "XOR" args) =
      (if (tvs.map PyTV.norm).any (fun v => v.isState .UNKNOWN) then
        Except.ok (.norm ⟨.UNKNOWN, .ALETHIC, none⟩)
      else if ((tvs.map PyTV.norm).countP (fun v => v.isState .TRUE)) % 2 = 1 then
        .ok (.norm ⟨.TRUE, .ALETHIC, none⟩)
      else .ok (.norm ⟨.FALSE, .ALETHIC, none⟩)) := by
    simp only [evalCond]
    rw [hev]
    rfl
  refine ⟨?_, ?_⟩
  · rintro tv0 rest rfl
    refine ⟨?_, ?_, ?_⟩ <;> intro h1
    · simp [hnot, PyTV.isState, h1]
    · simp [hnot, PyTV.isState, h1]
    · rcases h1 with h1 | h1 <;> simp [hnot, PyTV.isState, h1]
  intro hdom
  refine ⟨?_, ?_, ?_, ?_, ?_, ?_, ?_, ?_⟩
  · intro hex
    rw [hand, if_pos]
    rw [any_norm_isState]
    simp only [List.any_eq_true, decide_eq_true_eq]
    exact hex
  · intro hall
    have hnof : ¬ ∃ tv ∈ tvs, tv.value = .FALSE := by
      rintro ⟨tv, htv, hf⟩
      rw [hall tv htv] at hf
      cases hf
    rw [hand, if_neg, if_pos]
    · rw [all_norm_isState]
      simp only [List.all_eq_true, decide_eq_true_eq]
      exact hall
    · rw [any_norm_isState]
      simp only [List.any_eq_true, decide_eq_true_eq]
      exact hnof
  · intro hnof hnat
    rw [hand, if_neg, if_neg]
    · rw [all_norm_isState]
      simp only [List.all_eq_true, decide_eq_true_eq]
      exact hnat
    · rw [any_norm_isState]
      simp only [List.any_eq_true, decide_eq_true_eq]
      exact hnof
  · intro hex
    rw [hor, if_pos]
    rw [any_norm_isState]
    simp only [List.any_eq_true, decide_eq_true_eq]
    exact hex
  · intro hall
    have hnot' : ¬ ∃ tv ∈ tvs, tv.value = .TRUE := by
      rintro ⟨tv, htv, hf⟩
      rw [hall tv htv] at hf
      cases hf
    rw [hor, if_neg, if_pos]
    · rw [all_norm_isState]
      simp only [List.all_eq_true, decide_eq_true_eq]
      exact hall
    · rw [any_norm_isState]
      simp only [List.any_eq_true, decide_eq_true_eq]
      exact hnot'
  · intro hnot' hnaf
    rw [hor, if_neg, if_neg]
    · rw [all_norm_isState]
      simp only [List.all_eq_true, decide_eq_true_eq]
      exact hnaf
    · rw [any_norm_isState]
      simp only [List.any_eq_true, decide_eq_true_eq]
      exact hnot'
  · intro hex
    rw [hxor, if_pos]
    rw [any_norm_isState]
    simp only [List.any_eq_true, decide_eq_true_eq]
    exact hex
  · intro hnou
    rw [hxor, if_neg]
    · rw [countP_norm_isState]
      split <;> simp
    · rw [any_norm_isState]
      simp only [List.any_eq_true, decide_eq_true_eq]
      exact hnou

/-- Witness for C2: with operands evaluating to `TRUE` and `UNKNOWN`, AND
yields `UNKNOWN`, OR yields `TRUE`, XOR yields `UNKNOWN`, and NOT of the
`TRUE` head yields `FALSE`; and NOT of a `SUPERPOSITION` operand passes the
very same truth value (probability included) through unchanged. -/
theorem relationContext_operator_semantics_witness :
    evalCond (.tree "AND" witnessArgs) = .ok (.norm ⟨.UNKNOWN, .ALETHIC, none⟩) ∧
      evalCond (.tree "OR" witnessArgs) = .ok (.norm ⟨.TRUE, .ALETHIC, none⟩) ∧
      evalCond (.tree "XOR" witnessArgs) = .ok (.norm ⟨.UNKNOWN, .ALETHIC, none⟩) ∧
      evalCond (.tree "NOT" witnessArgs) = .ok (.norm ⟨.FALSE, .ALETHIC, none⟩) ∧
      evalCond (.tree "NOT" witnessArgsS) =
        .ok (.norm ⟨.SUPERPOSITION, .ALETHIC, some (7/10)⟩) := by
  have hargs : evalArgs witnessArgs =
      .ok ([⟨.TRUE, .ALETHIC, none⟩, ⟨.UNKNOWN, .ALETHIC, none⟩].map PyTV.norm) := by
    simp only [witnessArgs, evalArgs, evalTruth, evalCtx, evalCond]
    rfl
  have hargsS : evalArgs witnessArgsS =
      .ok ([⟨.SUPERPOSITION, .ALETHIC, some (7/10)⟩].map PyTV.norm) := by
    simp only [witnessArgsS, evalArgs, evalTruth, evalCtx, evalCond]
    rfl
  have h := relationContext_operator_semantics witnessArgs
    [⟨.TRUE, .ALETHIC, none⟩, ⟨.UNKNOWN, .ALETHIC, none⟩] hargs
  have hS := relationContext_operator_semantics witnessArgsS
    [⟨.SUPERPOSITION, .ALETHIC, some (7/10)⟩] hargsS
  have hg := h.2 (by decide)
  refine ⟨?_, ?_, ?_, ?_, ?_⟩
  · exact hg.2.2.1 (by decide) (by decide)
  · exact hg.2.2.2.1 ⟨⟨.TRUE, .ALETHIC, none⟩, by decide⟩
  · exact hg.2.2.2.2.2.2.1 ⟨⟨.UNKNOWN, .ALETHIC, none⟩, by decide⟩
  · exact (h.1 ⟨.TRUE, .ALETHIC, none⟩ [⟨.UNKNOWN, .ALETHIC, none⟩] rfl).1 rfl
  · exact (hS.1 ⟨.SUPERPOSITION, .ALETHIC, some (7/10)⟩ [] rfl).2.2 (Or.inr rfl)

/-- Witness for C3: the diamond graph is a DAG (rank argument discharged by
`decide`), and the shared ancestor `3` is in `get_all_ancestors` of `0`. -/
theorem getAllAncestors_eq_reachable_witness :
    ((3 : Fin 4) ∈ getAllAncestors diamondG 0 ↔ Reach diamondG 0 3) ∧
      (3 : Fin 4) ∈ getAllAncestors diamondG 0 := by
  have h := getAllAncestors_eq_reachable diamondG diamondRank (by decide) 0 3
  refine ⟨h, h.mpr ?_⟩
  have h1 : (1 : Fin 4) ∈ diamondG 0 := by decide
  have h2 : (3 : Fin 4) ∈ diamondG 1 := by decide
  exact Reach.step (Reach.parent h1) h2

/-- Two intervals that both contain a moment overlap. -/
theorem overlaps_of_containsM (i j : TimeInterval) (m : ℤ)
    (hi : i.containsM m) (hj : j.containsM m) : i.overlaps j := by
  rcases i with ⟨si, ei⟩
  rcases j with ⟨sj, ej⟩
  unfold TimeInterval.containsM at hi hj
  unfold TimeInterval.overlaps ltStartEnd
  cases si <;> cases ei <;> cases sj <;> cases ej <;> simp_all <;> omega

/-- With pairwise non-overlapping intervals, the linear scan finds exactly
the (unique) stored interval containing the moment. -/
theorem find?_contains_unique (m : ℤ) (l : List (TimeInterval × TruthValue))
    (hpw : l.Pairwise (fun a b => ¬ a.1.overlaps b.1)) :
    ∀ p ∈ l, p.1.containsM m → l.find? (fun q => q.1.containsM m) = some p := by
  induction l with
  | nil => intro p hp; simp at hp
  | cons hd tl ih =>
    intro p hp hpc
    rcases List.pairwise_cons.mp hpw with ⟨hhd, htl⟩
    by_cases hc : hd.1.containsM m
    · have hphd : p = hd := by
        rcases List.mem_cons.mp hp with rfl | hptl
        · rfl
        · exact absurd (overlaps_of_containsM hd.1 p.1 m hc hpc) (hhd p hptl)
      rw [hphd]
      exact List.find?_cons_of_pos tl (show (fun q : TimeInterval × TruthValue =>
        q.1.containsM m) hd = true from hc)
    · have hne : p ≠ hd := fun h => hc (h ▸ hpc)
      have hptl : p ∈ tl := by
        rcases List.mem_cons.mp hp with rfl | h
        · exact absurd rfl hne
        · exact h
      rw [List.find?_cons_of_neg _ (by simpa using hc)]
      exact ih htl p hptl hpc

/-- **C6.** For a `TemporalRelation` whose stored intervals are pairwise
non-overlapping: `add_interval` with an overlapping interval fails with the
overlap error and leaves the interval map exactly as it was; and
`truth_value_at(moment)` returns the truth value of the unique stored
interval containing the moment when one exists, and the evaluation of
`default_truth` otherwise. -/
theorem temporal_interval_exclusivity (tr : TemporalRel) (i : TimeInterval)
    (tv : Option TruthValue) (m : ℤ)
    (hpw : tr.interval_truths.Pairwise (fun a b => ¬ a.1.overlaps b.1)) :
    ((∃ p ∈ tr.interval_truths, i.overlaps p.1) →
      (tr.addInterval i tv).1 = tr ∧
        (tr.addInterval i tv).2 = some "ValueError: New interval overlaps existing") ∧
      (∀ p ∈ tr.interval_truths, p.1.containsM m → tr.truthValueAt m = p.2.value) ∧
      ((∀ p ∈ tr.interval_truths, ¬ p.1.containsM m) →
        tr.truthValueAt m = tr.default_truth.value) := by
  refine ⟨?_, ?_, ?_⟩
  · intro hex
    have hany : tr.interval_truths.any (fun p => i.overlaps p.1) = true := by
      rw [List.any_eq_true]
      exact hex
    simp [TemporalRel.addInterval, hany]
  · intro p hp hpc
    unfold TemporalRel.truthValueAt
    rw [find?_contains_unique m tr.interval_truths hpw p hp hpc]
    rfl
  · intro hnone
    unfold TemporalRel.truthValueAt
    have hfind : tr.interval_truths.find? (fun q => q.1.containsM m) = none :=
      List.find?_eq_none.mpr (fun q hq => by simpa using hnone q hq)
    rw [hfind]
    rfl

/-- Witness for C6: inserting `[15, 45)` over `[0, 30)` fails and leaves
the map unchanged; `truth_value_at(15) = TRUE`; `truth_value_at(-5)` is the
default `UNKNOWN`. -/
theorem temporal_interval_exclusivity_witness :
    ((tr0.addInterval ⟨some 15, some 45⟩ none).1 = tr0 ∧
      (tr0.addInterval ⟨some 15, some 45⟩ none).2 =
        some "ValueError: New interval overlaps existing") ∧
      tr0.truthValueAt 15 = .TRUE ∧ tr0.truthValueAt (-5) = .UNKNOWN := by
  have h15 := temporal_interval_exclusivity tr0 ⟨some 15, some 45⟩ none 15 (by decide)
  have hm5 := temporal_interval_exclusivity tr0 ⟨some 15, some 45⟩ none (-5) (by decide)
  refine ⟨h15.1 ⟨(⟨some 0, some 30⟩, ⟨.TRUE, .ALETHIC, none⟩), by decide, by decide⟩, ?_, ?_⟩
  · exact h15.2.1 (⟨some 0, some 30⟩, ⟨.TRUE, .ALETHIC, none⟩) (by decide) (by decide)
  · exact hm5.2.2 (by decide)

/-- **C9 (counterexample).** `TimeInterval.__init__` performs no
validation: constructing an interval with `start = 2 >= 1 = end` succeeds
and stores both bounds, so not every API-obtained interval with two bounds
satisfies `start < end`. -/
theorem timeInterval_init_no_validation :
    TimeInterval.init (some 2) (some 1) = ⟨some 2, some 1⟩ ∧
      ∃ a b : ℤ, (TimeInterval.init (some 2) (some 1)).start_time = some a ∧
        (TimeInterval.init (some 2) (some 1)).end_time = some b ∧ ¬ a < b :=
  ⟨rfl, 2, 1, rfl, rfl, by decide⟩

/-- **C9 (amended).** A `modify` call that supplies both a new start and a
new end fails when `start >= end` and leaves the interval exactly as it
was; when it succeeds, the resulting interval has both bounds and satisfies
`start < end`.  (The constructor, and a `modify` call supplying only one
bound, perform no validation.) -/
theorem timeInterval_modify_invariant :
    (∀ (i : TimeInterval) (a b : ℤ), b ≤ a →
      i.modify (some a) (some b) =
        (i, some "ValueError: start_time must be earlier than end_time")) ∧
      (∀ (i : TimeInterval) (a b : ℤ), a < b →
        i.modify (some a) (some b) = (⟨some a, some b⟩, none)) := by
  constructor
  · intro i a b h
    simp [TimeInterval.modify, h]
  · intro i a b h
    simp [TimeInterval.modify, show ¬ b ≤ a from not_le.mpr h]

/-- Witness for C9 (amended): `modify(2, 1)` fails and keeps the interval;
`modify(1, 2)` succeeds with `1 < 2`. -/
theorem timeInterval_modify_invariant_witness :
    TimeInterval.modify ⟨none, none⟩ (some 2) (some 1) =
        (⟨none, none⟩, some "ValueError: start_time must be earlier than end_time") ∧
      TimeInterval.modify ⟨none, none⟩ (some 1) (some 2) = (⟨some 1, some 2⟩, none) :=
  ⟨timeInterval_modify_invariant.1 ⟨none, none⟩ 2 1 (by decide),
   timeInterval_modify_invariant.2 ⟨none, none⟩ 1 2 (by decide)⟩

/-- **C8.** On the documented dict-shaped template (the shape
`add_quantified_relation` and the test suite build), `instantiate` raises
`AttributeError` at the attribute access `self.relation_template.predicate`
before any substitution — it neither substitutes bindings nor raises the
claimed UnboundVariable error.  The substitution loop itself, run on the
template's role map, substitutes bound placeholders, copies literals, and
raises the missing-variable error exactly when a placeholder is unbound. -/
theorem instantiate_dict_template :
    instantiate qrDict [("X", 7)] =
        .error "AttributeError: dict object has no attribute predicate" ∧
      instRoles [("subject", .str "DEX"), ("object", .str "$X")] [("X", 7)] =
        .ok [("subject", .str "DEX"), ("object", .ent 7)] ∧
      instRoles [("subject", .str "DEX"), ("object", .str "$X")] [] =
        .error "ValueError: Missing variable X" := by
  refine ⟨rfl, ?_, ?_⟩ <;> rfl

/-- **C10.** `add_entity` passes its `description` argument as the fourth
positional argument of `Entity.__init__`, which is `aliases`: the returned
entity has the upper-cased canonical name as claimed, but its `description`
is `None` instead of the argument, and its alias list is the upper-cased
characters of the description string. -/
theorem addEntity_description_slip :
    (addEntity "Dog" "noun" none (some "a pet")).name = "DOG" ∧
      (addEntity "Dog" "noun" none (some "a pet")).word_type = "NOUN" ∧
      (addEntity "Dog" "noun" none (some "a pet")).description = none ∧
      (addEntity "Dog" "noun" none (some "a pet")).aliases =
        ["A", " ", "P", "E", "T"] := by
  refine ⟨?_, ?_, rfl, ?_⟩ <;> decide

/-- The spec-modelled truth-value serialization round-trips the state and
the probability (the modality is not persisted). -/
theorem tvFromDict_toDict (tv : TruthValue) :
    tvFromDict (TruthValue.toDict tv) = .ok ⟨tv.value, .ALETHIC, tv.probability⟩ := by
  cases hv : tv.value <;>
    simp [TruthValue.toDict, tvFromDict, stateName, stateOfName, hv]

/-- Quantifier member names round-trip. -/
theorem quantOfName_quantName (q : Quantifier) :
    quantOfName (quantName q) = .ok q := by
  cases q <;> rfl

/-- Role resolution succeeds and returns the role map unchanged when every
referenced entity id is present. -/
theorem resolveRoles_ok (ents : List SLEntity) :
    ∀ roles : List (String × ℕ),
      (∀ rv ∈ roles, ∃ e ∈ ents, SLEntity.id e = rv.2) →
      resolveRoles roles ents = .ok roles := by
  intro roles
  induction roles with
  | nil => intro _; rfl
  | cons hd tl ih =>
    intro h
    obtain ⟨e, hem, heid⟩ := h hd (List.mem_cons_self hd tl)
    have hsome : (ents.find? (fun x => x.id = hd.2)).isSome := by
      rw [List.find?_isSome]
      exact ⟨e, hem, by simpa using heid⟩
    cases hfound : ents.find? (fun x => x.id = hd.2) with
    | none => rw [hfound] at hsome; simp at hsome
    | some e2 =>
      have he2 : e2.id = hd.2 := by
        have := List.find?_some hfound
        simpa using this
      have htl := ih (fun rv hrv => h rv (List.mem_cons_of_mem hd hrv))
      rw [resolveRoles, hfound, htl]
      simp [he2]

/-- One pointwise update pass preserves the name and id columns. -/
theorem map_update_preserves (es : List SLEntity) (eid rid : ℕ) :
    ((es.map (fun e =>
        if e.id = eid then
          ⟨e.id, e.name, e.word_type, e.parentIds, e.aliases, e.description,
            e.relations ++ [rid]⟩
        else e)).map SLEntity.name = es.map SLEntity.name) ∧
      ((es.map (fun e =>
        if e.id = eid then
          ⟨e.id, e.name, e.word_type, e.parentIds, e.aliases, e.description,
            e.relations ++ [rid]⟩
        else e)).map SLEntity.id = es.map SLEntity.id) := by
  constructor <;>
    · rw [List.map_map]
      apply List.map_congr_left
      intro e _
      by_cases h : e.id = eid <;> simp [h]

/-- Attaching a relation to its role entities preserves the name and id
columns of the entity table. -/
theorem attachRel_preserves (rid : ℕ) :
    ∀ (roleVals : List ℕ) (ents : List SLEntity),
      (attachRel rid roleVals ents).map SLEntity.name = ents.map SLEntity.name ∧
        (attachRel rid roleVals ents).map SLEntity.id = ents.map SLEntity.id := by
  intro roleVals
  induction roleVals with
  | nil => intro ents; exact ⟨rfl, rfl⟩
  | cons hd tl ih =>
    intro ents
    have hstep := map_update_preserves ents hd rid
    have hrec := ih (ents.map (fun e =>
      if e.id = hd then
        ⟨e.id, e.name, e.word_type, e.parentIds, e.aliases, e.description,
          e.relations ++ [rid]⟩
      else e))
    exact ⟨hrec.1.trans hstep.1, hrec.2.trans hstep.2⟩

/-- Deserializing a saved plain relation succeeds and restores the id, the
role map and the truth state (the modality is not persisted). -/
theorem relFromDict_saved (r : SLRel) (preds : List SLPredicate)
    (ents : List SLEntity) (rels : List SLRel)
    (hp : ∃ p ∈ preds, SLPredicate.name p = r.predicateName)
    (he : ∀ rv ∈ r.roles, ∃ e ∈ ents, SLEntity.id e = rv.2) :
    ∃ pn ctx, relFromDict (SLRel.toDict r) preds ents rels =
      .ok ⟨r.id, pn, r.roles, pyUpper r.relationType, ctx,
        ⟨r.truthValue.value, .ALETHIC, r.truthValue.probability⟩⟩ := by
  obtain ⟨p, hpm, hpn⟩ := hp
  have hsome : (preds.find? (fun q => q.name = r.predicateName)).isSome := by
    rw [List.find?_isSome]
    exact ⟨p, hpm, by simpa using hpn⟩
  cases hfound : preds.find? (fun q => q.name = r.predicateName) with
  | none => rw [hfound] at hsome; simp at hsome
  | some p2 =>
    refine ⟨p2.name,
      (match r.contextId with
        | some cid => (rels.find? (fun x => x.id = cid)).map SLRel.id
        | none => none), ?_⟩
    have hroles : resolveRoles r.roles ents = .ok r.roles :=
      resolveRoles_ok ents r.roles he
    simp only [relFromDict, SLRel.toDict]
    rw [hfound, hroles, tvFromDict_toDict]
    rfl

/-- Loading the saved form of a list of plain relations succeeds, preserves
the entity table's names and ids, and appends relations whose truth states
are those of the sources. -/
theorem loadRelations_saved (preds : List SLPredicate) :
    ∀ (rs : List SLRel) (ents : List SLEntity) (rels : List SLRel),
      (∀ r ∈ rs, r.relationType ≠ "TEMPORAL") →
      (∀ r ∈ rs, ∃ p ∈ preds, SLPredicate.name p = r.predicateName) →
      (∀ r ∈ rs, ∀ rv ∈ r.roles, ∃ e ∈ ents, SLEntity.id e = rv.2) →
      ∃ ents2 rels2,
        loadRelations preds (rs.map SLRel.toDict) ents rels = .ok (ents2, rels2) ∧
          ents2.map SLEntity.name = ents.map SLEntity.name ∧
          ents2.map SLEntity.id = ents.map SLEntity.id ∧
          rels2.map (fun x => x.truthValue.value) =
            rels.map (fun x => x.truthValue.value) ++
              rs.map (fun x => x.truthValue.value) := by
  intro rs
  induction rs with
  | nil =>
    intro ents rels _ _ _
    exact ⟨ents, rels, rfl, rfl, rfl, by simp⟩
  | cons r rest ih =>
    intro ents rels hnt hrp hre
    obtain ⟨pn, ctx, hrel⟩ := relFromDict_saved r preds ents rels
      (hrp r (List.mem_cons_self r rest))
      (hre r (List.mem_cons_self r rest))
    have hattach := attachRel_preserves r.id (r.roles.map Prod.snd) ents
    have hre2 : ∀ x ∈ rest, ∀ rv ∈ SLRel.roles x,
        ∃ e ∈ attachRel r.id (r.roles.map Prod.snd) ents, SLEntity.id e = rv.2 := by
      intro x hx rv hrv
      obtain ⟨e, hem, heid⟩ := hre x (List.mem_cons_of_mem r hx) rv hrv
      have hmm : rv.2 ∈ (attachRel r.id (r.roles.map Prod.snd) ents).map SLEntity.id := by
        rw [hattach.2]
        exact List.mem_map.mpr ⟨e, hem, heid⟩
      obtain ⟨e2, he2m, he2id⟩ := List.mem_map.mp hmm
      exact ⟨e2, he2m, he2id⟩
    obtain ⟨ents2, rels2, hload, hname, hid, htv⟩ :=
      ih (attachRel r.id (r.roles.map Prod.snd) ents)
        (rels ++ [⟨r.id, pn, r.roles, pyUpper r.relationType, ctx,
          ⟨r.truthValue.value, .ALETHIC, r.truthValue.probability⟩⟩])
        (fun x hx => hnt x (List.mem_cons_of_mem r hx))
        (fun x hx => hrp x (List.mem_cons_of_mem r hx))
        hre2
    refine ⟨ents2, rels2, ?_, hname.trans hattach.1, hid.trans hattach.2, ?_⟩
    · have hnottemp : ¬ ((SLRel.toDict r).relation_type = "TEMPORAL") :=
        hnt r (List.mem_cons_self r rest)
      rw [List.map_cons, loadRelations, if_neg hnottemp, hrel]
      exact hload
    · rw [htv]
      simp

/-- Loading the saved form of the quantified relations succeeds, preserving
each quantifier and truth state. -/
theorem loadQuants_saved :
    ∀ qs : List SLQuant,
      loadQuants (qs.map SLQuant.toDict) =
        .ok (qs.map (fun q =>
          ⟨q.quantifier, q.varNames.map pyUpper, q.template,
            ⟨q.truthValue.value, .ALETHIC, q.truthValue.probability⟩⟩)) := by
  intro qs
  induction qs with
  | nil => rfl
  | cons q rest ih =>
    have hq : quantFromDict (SLQuant.toDict q) =
        .ok ⟨q.quantifier, q.varNames.map pyUpper, q.template,
          ⟨q.truthValue.value, .ALETHIC, q.truthValue.probability⟩⟩ := by
      simp only [quantFromDict, SLQuant.toDict, quantOfName_quantName, tvFromDict_toDict]
      rfl
    simp only [List.map_cons, loadQuants, hq, ih]
    rfl

/-- **C7.** Serializing an ontology containing entities, plain relations
with explicit truth values, and FORALL/EXISTS quantified relations, then
deserializing, yields an ontology with identical entity names, identical
relation truth states, and identical quantifiers and truth states on the
quantified relations.  Hypotheses: canonical names are upper-case (the
constructors enforce this), relations reference registered predicates and
entities, and no relation carries the `"TEMPORAL"` tag.  `TruthValue`
serialization is modelled from the spec (`spec-modelled`), since
`TruthValue.to_dict`/`from_dict` are absent from `src/`. -/
theorem save_load_round_trip (o : SLOntology)
    (hnames : ∀ e ∈ o.entities, pyUpper (SLEntity.name e) = SLEntity.name e)
    (hrp : ∀ r ∈ o.relations, ∃ p ∈ o.predicates, SLPredicate.name p = r.predicateName)
    (hpn : ∀ p ∈ o.predicates, pyUpper (SLPredicate.name p) = SLPredicate.name p)
    (hre : ∀ r ∈ o.relations, ∀ rv ∈ r.roles, ∃ e ∈ o.entities, SLEntity.id e = rv.2)
    (hnt : ∀ r ∈ o.relations, r.relationType ≠ "TEMPORAL") :
    ∃ o2, loadOntology (saveOntology o) = .ok o2 ∧
      o2.entities.map SLEntity.name = o.entities.map SLEntity.name ∧
      o2.relations.map (fun r => r.truthValue.value) =
        o.relations.map (fun r => r.truthValue.value) ∧
      o2.quantified.map SLQuant.quantifier = o.quantified.map SLQuant.quantifier ∧
      o2.quantified.map (fun q => q.truthValue.value) =
        o.quantified.map (fun q => q.truthValue.value) := by
  have hentNames : ((o.entities.map SLEntity.toDict).map entFromDict).map SLEntity.name =
      o.entities.map SLEntity.name := by
    rw [List.map_map, List.map_map]
    apply List.map_congr_left
    intro e hem
    exact hnames e hem
  have hentIds : ((o.entities.map SLEntity.toDict).map entFromDict).map SLEntity.id =
      o.entities.map SLEntity.id := by
    rw [List.map_map, List.map_map]
    apply List.map_congr_left
    intro e _
    rfl
  have hpredNames : ((o.predicates.map SLPredicate.toDict).map predFromDict).map SLPredicate.name =
      o.predicates.map SLPredicate.name := by
    rw [List.map_map, List.map_map]
    apply List.map_congr_left
    intro p hpm
    exact hpn p hpm
  have hrp2 : ∀ r ∈ o.relations,
      ∃ p ∈ (o.predicates.map SLPredicate.toDict).map predFromDict,
        SLPredicate.name p = r.predicateName := by
    intro r hr
    obtain ⟨p, hpm, hpname⟩ := hrp r hr
    have : SLPredicate.name (predFromDict (SLPredicate.toDict p)) = r.predicateName := by
      show pyUpper p.name = r.predicateName
      rw [hpn p hpm, hpname]
    exact ⟨predFromDict (SLPredicate.toDict p),
      List.mem_map.mpr ⟨SLPredicate.toDict p, List.mem_map.mpr ⟨p, hpm, rfl⟩, rfl⟩, this⟩
  have hre2 : ∀ r ∈ o.relations, ∀ rv ∈ r.roles,
      ∃ e ∈ (o.entities.map SLEntity.toDict).map entFromDict, SLEntity.id e = rv.2 := by
    intro r hr rv hrv
    obtain ⟨e, hem, heid⟩ := hre r hr rv hrv
    refine ⟨entFromDict (SLEntity.toDict e),
      List.mem_map.mpr ⟨SLEntity.toDict e, List.mem_map.mpr ⟨e, hem, rfl⟩, rfl⟩, heid⟩
  obtain ⟨ents2, rels2, hload, hname, hid, htv⟩ :=
    loadRelations_saved ((o.predicates.map SLPredicate.toDict).map predFromDict)
      o.relations ((o.entities.map SLEntity.toDict).map entFromDict) [] hnt hrp2 hre2
  refine ⟨⟨ents2, (o.predicates.map SLPredicate.toDict).map predFromDict, rels2,
      o.quantified.map (fun q =>
        ⟨q.quantifier, q.varNames.map pyUpper, q.template,
          ⟨q.truthValue.value, .ALETHIC, q.truthValue.probability⟩⟩)⟩, ?_, ?_, ?_, ?_, ?_⟩
  · simp only [loadOntology, saveOntology, hload, loadQuants_saved]
    rfl
  · exact hname.trans hentNames
  · rw [htv]
    simp
  · rw [List.map_map]
    apply List.map_congr_left
    intro q _
    rfl
  · rw [List.map_map]
    apply List.map_congr_left
    intro q _
    rfl

/-- Witness for C7: the test-scenario ontology round-trips with identical
entity names, relation truth state, quantifiers and quantified truth
states. -/
theorem save_load_round_trip_witness :
    ∃ o2, loadOntology (saveOntology oTest) = .ok o2 ∧
      o2.entities.map SLEntity.name = oTest.entities.map SLEntity.name ∧
      o2.relations.map (fun r => r.truthValue.value) =
        oTest.relations.map (fun r => r.truthValue.value) ∧
      o2.quantified.map SLQuant.quantifier = oTest.quantified.map SLQuant.quantifier ∧
      o2.quantified.map (fun q => q.truthValue.value) =
        oTest.quantified.map (fun q => q.truthValue.value) :=
  save_load_round_trip oTest (by decide) (by decide) (by decide) (by decide) (by decide)

end Logos
